import Mathlib

/-!
Shallow embedding of the quote-calculation engine of `src/app.py` (and the
duplicate engine variant in `src/app_backup.py`) of the hardware-quote-demo
repository, together with theorems settling the specification claims.

Modelling conventions:
* Python floats are modelled as exact rationals (`ℚ`), Python ints as `Int`.
* Python dictionaries holding catalog records are modelled as structures;
  the `dict.get(key, default)` accesses the source performs on such records
  are pre-applied when the record is built, except where Python truthiness
  of the raw value matters (those fields stay `Option`).
* Catalog maps (`materials_map`, `processes_map`, ...) are association
  lists queried with `List.lookup`.
* `sorted(xs, key=...)` (a stable sort) is modelled by `List.insertionSort`,
  which is stable and agrees with any stable sort on a total preorder.
-/

namespace HQuote

/-- One entry of `quantity_tiers` (fields read by `find_multiplier`,
src/app.py lines 50-61; `label` is display-only). `max_qty` is `None`able. -/
structure Tier where
  min_qty : Int
  max_qty : Option Int
  multiplier : ℚ
  label : String
deriving Repr, DecidableEq

/-- The membership test of src/app.py line 55:
`qty >= min_q and (max_q is None or qty <= max_q)`. -/
def tierContains (t : Tier) (qty : Int) : Bool :=
  decide (t.min_qty ≤ qty) &&
    (match t.max_qty with
     | none => true
     | some m => decide (qty ≤ m))

/-- Sort key of `sorted(tiers, key=lambda t: t["min_qty"])`. -/
def tierLE (a b : Tier) : Prop := a.min_qty ≤ b.min_qty

instance : DecidableRel tierLE := fun a b =>
  inferInstanceAs (Decidable (a.min_qty ≤ b.min_qty))

instance : IsTotal Tier tierLE := ⟨fun a b => Int.le_total a.min_qty b.min_qty⟩

instance : IsTrans Tier tierLE := ⟨fun _ _ _ h1 h2 => le_trans h1 h2⟩

/-- `sorted(tiers, key=lambda t: t["min_qty"])` (stable). -/
def sortTiers (tiers : List Tier) : List Tier := List.insertionSort tierLE tiers

/-- The candidate-updating loop `for tier in sorted(...): if <P>: candidate = tier`
(src/app.py lines 52-56): keep the last element satisfying `P`. -/
def pickLast (P : Tier → Bool) (l : List Tier) (init : Option Tier) : Option Tier :=
  l.foldl (fun c t => if P t then some t else c) init

/-- `find_multiplier` of src/app.py lines 50-61. -/
def find_multiplier (tiers : List Tier) (qty : Int) : ℚ × Option Tier :=
  let candidate : Option Tier := pickLast (fun t => tierContains t qty) (sortTiers tiers) none
  -- `if candidate is None and tiers: candidate = sorted(tiers, ...)[0]`
  let candidate : Option Tier :=
    match candidate with
    | some t => some t
    | none => if tiers.isEmpty then none else (sortTiers tiers).head?
  match candidate with
  | none => (1, none)
  | some t => (t.multiplier, some t)

namespace Backup

/-- `find_multiplier` of src/app_backup.py lines 43-55 (the duplicate engine
variant); transcribed independently from that file. -/
def find_multiplier (tiers : List Tier) (qty : Int) : ℚ × Option Tier :=
  let candidate : Option Tier :=
    (List.insertionSort tierLE tiers).foldl
      (fun c t =>
        if (decide (t.min_qty ≤ qty) &&
            (match t.max_qty with
             | none => true
             | some m => decide (qty ≤ m))) then some t else c) none
  -- 选择 min_qty 最小的档位作为兜底
  let candidate : Option Tier :=
    match candidate with
    | some t => some t
    | none => if tiers.isEmpty then none else (List.insertionSort tierLE tiers).head?
  match candidate with
  | none => (1, none)
  | some t => (t.multiplier, some t)

end Backup

/-! ### Helper lemmas about the candidate-keeping loop -/

theorem pickLast_of_all_false (P : Tier → Bool) :
    ∀ (l : List Tier) (init : Option Tier), (∀ t ∈ l, P t = false) →
      pickLast P l init = init := by
  intro l
  induction l with
  | nil => intro init _; rfl
  | cons a l ih =>
    intro init h
    have ha : P a = false := h a (List.mem_cons_self a l)
    have : pickLast P (a :: l) init = pickLast P l (if P a then some a else init) := rfl
    rw [this, ha]
    simp only [Bool.false_eq_true, if_false]
    exact ih init fun t ht => h t (List.mem_cons_of_mem a ht)

theorem pickLast_exists (P : Tier → Bool) :
    ∀ (l : List Tier) (init : Option Tier), (∃ t ∈ l, P t = true) →
      ∃ t, pickLast P l init = some t ∧ t ∈ l ∧ P t = true := by
  intro l
  induction l with
  | nil => intro init h; obtain ⟨t, ht, _⟩ := h; exact absurd ht (List.not_mem_nil t)
  | cons a l ih =>
    intro init h
    have hstep : pickLast P (a :: l) init = pickLast P l (if P a then some a else init) := rfl
    by_cases hl : ∃ t ∈ l, P t = true
    · obtain ⟨t, hres, hmem, hP⟩ := ih (if P a then some a else init) hl
      exact ⟨t, by rw [hstep]; exact hres, List.mem_cons_of_mem a hmem, hP⟩
    · push_neg at hl
      obtain ⟨t, ht, hP⟩ := h
      rcases List.mem_cons.mp ht with rfl | htl
      · refine ⟨t, ?_, List.mem_cons_self t l, hP⟩
        rw [hstep, hP]
        simp only [if_true]
        exact pickLast_of_all_false P l (some t) fun u hu =>
          Bool.eq_false_iff.mpr fun hPu => (hl u hu) hPu
      · exact absurd hP (hl t htl)

theorem pickLast_max (P : Tier → Bool) :
    ∀ (l : List Tier) (init : Option Tier) (t : Tier),
      List.Sorted tierLE l → pickLast P l init = some t →
      ((t ∈ l ∧ P t = true) ∨ init = some t) ∧
        ∀ u ∈ l, P u = true → u.min_qty ≤ t.min_qty := by
  intro l
  induction l with
  | nil =>
    intro init t _ hres
    exact ⟨Or.inr hres, fun u hu => absurd hu (List.not_mem_nil u)⟩
  | cons a l ih =>
    intro init t hs hres
    have hsl : List.Sorted tierLE l := hs.of_cons
    have hrel : ∀ b ∈ l, tierLE a b := List.rel_of_sorted_cons hs
    have hstep : pickLast P (a :: l) init = pickLast P l (if P a then some a else init) := rfl
    rw [hstep] at hres
    obtain ⟨hsrc, hmax⟩ := ih (if P a then some a else init) t hsl hres
    refine ⟨?_, ?_⟩
    · rcases hsrc with ⟨hmem, hP⟩ | hinit
      · exact Or.inl ⟨List.mem_cons_of_mem a hmem, hP⟩
      · by_cases hPa : P a = true
        · rw [hPa] at hinit
          simp only [if_true] at hinit
          have : a = t := Option.some.inj hinit
          subst this
          exact Or.inl ⟨List.mem_cons_self a l, hPa⟩
        · rw [Bool.eq_false_iff.mpr hPa] at hinit
          simp only [Bool.false_eq_true, if_false] at hinit
          exact Or.inr hinit
    · intro u hu hPu
      rcases List.mem_cons.mp hu with rfl | hul
      · -- u = a, the head of the sorted list
        rcases hsrc with ⟨hmem, _⟩ | hinit
        · exact hrel t hmem
        · by_cases hPa : P u = true
          · rw [hPa] at hinit
            simp only [if_true] at hinit
            have : u = t := Option.some.inj hinit
            subst this; exact le_refl _
          · exact absurd hPu hPa
      · exact hmax u hul hPu

theorem mem_sortTiers {t : Tier} {tiers : List Tier} :
    t ∈ sortTiers tiers ↔ t ∈ tiers :=
  (List.perm_insertionSort tierLE tiers).mem_iff

theorem sorted_sortTiers (tiers : List Tier) : List.Sorted tierLE (sortTiers tiers) :=
  List.sorted_insertionSort tierLE tiers

theorem find_multiplier_def (tiers : List Tier) (qty : Int) :
    find_multiplier tiers qty =
      (match (match pickLast (fun t => tierContains t qty) (sortTiers tiers) none with
              | some t => some t
              | none => if tiers.isEmpty then none else (sortTiers tiers).head?) with
       | none => ((1 : ℚ), (none : Option Tier))
       | some t => (t.multiplier, some t)) := rfl

theorem sortTiers_ne_nil {tiers : List Tier} (h : tiers ≠ []) : sortTiers tiers ≠ [] := by
  intro h0
  apply h
  have hlen := (List.perm_insertionSort tierLE tiers).length_eq
  rw [show List.insertionSort tierLE tiers = sortTiers tiers from rfl, h0] at hlen
  exact List.length_eq_zero.mp hlen.symm

/-- C3: `find_multiplier` returns the multiplier and tier of the last tier in
ascending `min_qty` order whose `[min_qty, max_qty]` range (open-ended when
`max_qty` is absent) contains `qty`, so a containing tier of maximal `min_qty`
wins; when the tier list is non-empty but no tier contains `qty` it falls back
to a tier of smallest `min_qty`; when the tier list is empty it returns
multiplier `1.0` and no matched tier. -/
theorem find_multiplier_spec (tiers : List Tier) (qty : Int) :
    (tiers = [] → find_multiplier tiers qty = (1, none))
    ∧ ((∃ u ∈ tiers, tierContains u qty = true) →
        ∃ t, find_multiplier tiers qty = (t.multiplier, some t) ∧ t ∈ tiers ∧
          tierContains t qty = true ∧
          ∀ u ∈ tiers, tierContains u qty = true → u.min_qty ≤ t.min_qty)
    ∧ (tiers ≠ [] → (∀ u ∈ tiers, tierContains u qty = false) →
        ∃ t, find_multiplier tiers qty = (t.multiplier, some t) ∧ t ∈ tiers ∧
          ∀ u ∈ tiers, t.min_qty ≤ u.min_qty) := by
  refine ⟨?_, ?_, ?_⟩
  · rintro rfl; rfl
  · intro h
    have hs : ∃ u ∈ sortTiers tiers, tierContains u qty = true := by
      obtain ⟨u, hu, hP⟩ := h
      exact ⟨u, mem_sortTiers.mpr hu, hP⟩
    obtain ⟨t, hpick, htmem, htP⟩ :=
      pickLast_exists (fun t => tierContains t qty) (sortTiers tiers) none hs
    have hmax := pickLast_max (fun t => tierContains t qty) (sortTiers tiers) none t
      (sorted_sortTiers tiers) hpick
    refine ⟨t, ?_, mem_sortTiers.mp htmem, htP, ?_⟩
    · rw [find_multiplier_def, hpick]
    · intro u hu hPu
      exact hmax.2 u (mem_sortTiers.mpr hu) hPu
  · intro hne hall
    have hallF : ∀ u ∈ sortTiers tiers, tierContains u qty = false := fun u hu =>
      hall u (mem_sortTiers.mp hu)
    have hpick : pickLast (fun t => tierContains t qty) (sortTiers tiers) none = none :=
      pickLast_of_all_false _ _ _ hallF
    obtain ⟨a, rest, hcons⟩ := List.exists_cons_of_ne_nil (sortTiers_ne_nil hne)
    have hE : tiers.isEmpty = false := by
      cases tiers with
      | nil => exact absurd rfl hne
      | cons x xs => rfl
    refine ⟨a, ?_, mem_sortTiers.mp (hcons ▸ List.mem_cons_self a rest), ?_⟩
    · rw [find_multiplier_def, hpick]
      simp only [hE, Bool.false_eq_true, if_false, hcons, List.head?_cons]
    · intro u hu
      have hu' : u ∈ sortTiers tiers := mem_sortTiers.mpr hu
      have hsorted := sorted_sortTiers tiers
      rw [hcons] at hu' hsorted
      rcases List.mem_cons.mp hu' with rfl | hur
      · exact le_refl _
      · exact List.rel_of_sorted_cons hsorted u hur

theorem find_multiplier_spec_witness :
    (([] : List Tier) = []) ∧ find_multiplier [] 5 = (1, none) :=
  ⟨rfl, (find_multiplier_spec [] 5).1 rfl⟩

/-- C9: the `find_multiplier` in app.py and the `find_multiplier` in
app_backup.py (the duplicate engine variant) return identical results (same
multiplier and same matched tier) on every tier list and quantity. -/
theorem backup_find_multiplier_agrees (tiers : List Tier) (qty : Int) :
    Backup.find_multiplier tiers qty = find_multiplier tiers qty := rfl

/-! ### Process costing (src/app.py lines 64-96) -/

/-- One entry of the `processes` catalog (fields read by
`compute_process_costs`; the `dict.get` defaults are applied at lookup). -/
structure ProcessMeta where
  name : String
  unit_rate_per_min : ℚ
  setup_cost : ℚ
deriving Repr, DecidableEq

/-- One entry of a part's `process_steps` list; `.get` defaults
(`enabled` True, `minutes_per_unit` 0.0) applied at record construction. -/
structure ProcessStep where
  enabled : Bool
  process_code : String
  minutes_per_unit : ℚ
deriving Repr, DecidableEq

/-- The breakdown dictionary appended at src/app.py lines 83-95. -/
structure ProcessRow where
  part_code : String
  process_code : String
  name : String
  minutes_per_unit : ℚ
  rate_per_min : ℚ
  qty : Int
  runtime_cost : ℚ
  setup_cost : ℚ
  total_cost : ℚ
deriving Repr, DecidableEq

abbrev ProcessesMap := List (String × ProcessMeta)

/-- The loop body of src/app.py lines 75-94 for one (enabled) step:
`meta = processes_map.get(code, {})` and the `meta.get` calls with their
defaults, then the cost formulas and the breakdown row. -/
def stepRow (processes_map : ProcessesMap) (qty : Int) (part_code : String)
    (step : ProcessStep) : ProcessRow :=
  let code := step.process_code
  let meta := List.lookup code processes_map
  let minutes := step.minutes_per_unit
  let rate_per_min : ℚ := match meta with | some m => m.unit_rate_per_min | none => 0
  let setup_cost : ℚ := match meta with | some m => m.setup_cost | none => 0
  let nm : String := match meta with | some m => m.name | none => code
  let runtime_cost := minutes * rate_per_min * (qty : ℚ)
  ⟨part_code, code, nm, minutes, rate_per_min, qty, runtime_cost, setup_cost,
    runtime_cost + setup_cost⟩

/-- One iteration of the accumulator loop of src/app.py lines 72-95:
`if not step.get("enabled", True): continue`, then accumulate the step's
total and append its breakdown row. -/
def cpcStep (processes_map : ProcessesMap) (qty : Int) (part_code : String)
    (acc : ℚ × List ProcessRow) (step : ProcessStep) : ℚ × List ProcessRow :=
  if step.enabled = false then acc
  else (acc.1 + (stepRow processes_map qty part_code step).total_cost,
        acc.2 ++ [stepRow processes_map qty part_code step])

/-- `compute_process_costs` of src/app.py lines 64-96. -/
def compute_process_costs (process_steps : List ProcessStep)
    (processes_map : ProcessesMap) (qty : Int) (part_code : String) :
    ℚ × List ProcessRow :=
  process_steps.foldl (cpcStep processes_map qty part_code) (0, [])

theorem foldl_cpcStep (pmap : ProcessesMap) (qty : Int) (pc : String) :
    ∀ (steps : List ProcessStep) (acc : ℚ × List ProcessRow),
      steps.foldl (cpcStep pmap qty pc) acc
        = (acc.1 + ((steps.filter fun s => s.enabled).map
              fun s => (stepRow pmap qty pc s).total_cost).sum,
           acc.2 ++ (steps.filter fun s => s.enabled).map (stepRow pmap qty pc)) := by
  intro steps
  induction steps with
  | nil => intro acc; simp
  | cons a steps ih =>
    intro acc
    by_cases he : a.enabled = true
    · have hstep : cpcStep pmap qty pc acc a
          = (acc.1 + (stepRow pmap qty pc a).total_cost,
             acc.2 ++ [stepRow pmap qty pc a]) := by
        simp [cpcStep, he]
      simp only [List.foldl_cons, ih, hstep, List.filter_cons, he, if_true, List.map_cons,
        List.sum_cons, List.append_assoc, List.singleton_append]
      exact Prod.ext (by ring) rfl
    · have he' : a.enabled = false := Bool.eq_false_iff.mpr he
      have hstep : cpcStep pmap qty pc acc a = acc := by simp [cpcStep, he']
      simp only [List.foldl_cons, ih, hstep, List.filter_cons, he', Bool.false_eq_true,
        if_false]

theorem stepRow_unknown_total (pmap : ProcessesMap) (qty : Int) (pc : String)
    (s : ProcessStep) (h : List.lookup s.process_code pmap = none) :
    (stepRow pmap qty pc s).total_cost = 0 := by
  simp [stepRow, h]

/-- Catalog setup cost of a step's process, `0` when the code is unknown. -/
def catalog_setup_cost (pmap : ProcessesMap) (s : ProcessStep) : ℚ :=
  match List.lookup s.process_code pmap with
  | some m => m.setup_cost
  | none => 0

theorem sum_enabled_eq_sum_known (pmap : ProcessesMap) (qty : Int) (pc : String) :
    ∀ steps : List ProcessStep,
      ((steps.filter fun s => s.enabled).map
          fun s => (stepRow pmap qty pc s).total_cost).sum
        = ((steps.filter fun s => s.enabled && (List.lookup s.process_code pmap).isSome).map
            fun s => (stepRow pmap qty pc s).total_cost).sum := by
  intro steps
  induction steps with
  | nil => rfl
  | cons a steps ih =>
    by_cases he : a.enabled = true
    · by_cases hk : (List.lookup a.process_code pmap).isSome = true
      · simp only [List.filter_cons, he, hk, Bool.and_self, if_true, List.map_cons,
          List.sum_cons, ih]
      · have hnone : List.lookup a.process_code pmap = none := by
          cases hcase : List.lookup a.process_code pmap with
          | none => rfl
          | some m => rw [hcase] at hk; exact absurd rfl hk
        have h0 : (stepRow pmap qty pc a).total_cost = 0 :=
          stepRow_unknown_total pmap qty pc a hnone
        simp only [List.filter_cons, he, if_true, Bool.true_and, hk, Bool.false_eq_true,
          if_false, List.map_cons, List.sum_cons, h0, zero_add, ih]
    · have he' : a.enabled = false := Bool.eq_false_iff.mpr he
      simp only [List.filter_cons, he', Bool.false_eq_true, if_false, Bool.false_and, ih]

/-- C1 counterexample: an enabled step whose `process_code` is absent from the
process catalog is not skipped by `compute_process_costs`: it still produces a
breakdown row (claim predicts zero rows), although its contribution to the
returned total is zero. -/
theorem unknown_code_step_emits_row :
    List.lookup "PX" ([] : ProcessesMap) = none
    ∧ ((compute_process_costs [⟨true, "PX", 5⟩] [] 10 "P1").2).length = 1
    ∧ (compute_process_costs [⟨true, "PX", 5⟩] [] 10 "P1").1 = 0 := by
  refine ⟨rfl, rfl, ?_⟩
  show (0 : ℚ) + (5 * 0 * (10 : ℚ) + 0) = 0
  norm_num

/-- C1 (amended): `compute_process_costs` skips only disabled steps; an
enabled step whose `process_code` is absent from the catalog still yields
exactly one breakdown row (priced with zero rate and setup cost) and
contributes zero to the returned total, so the total equals the sum over
enabled steps with known codes of their step totals; every enabled step —
known code or not — yields exactly one row. -/
theorem compute_process_costs_amended (steps : List ProcessStep)
    (pmap : ProcessesMap) (qty : Int) (pc : String) :
    ((compute_process_costs steps pmap qty pc).2
        = (steps.filter fun s => s.enabled).map (stepRow pmap qty pc))
    ∧ ((compute_process_costs steps pmap qty pc).1
        = ((steps.filter fun s => s.enabled && (List.lookup s.process_code pmap).isSome).map
            fun s => (stepRow pmap qty pc s).total_cost).sum)
    ∧ (∀ s ∈ steps, List.lookup s.process_code pmap = none →
        (stepRow pmap qty pc s).total_cost = 0) := by
  refine ⟨?_, ?_, ?_⟩
  · rw [compute_process_costs, foldl_cpcStep]
    simp
  · rw [compute_process_costs, foldl_cpcStep]
    simp [sum_enabled_eq_sum_known pmap qty pc steps]
  · intro s _ h
    exact stepRow_unknown_total pmap qty pc s h

/-- C10: at quantity 0, `compute_process_costs` returns a total equal to the
sum of the catalog `setup_cost` of each enabled step whose code is in the
catalog; every runtime cost is zero, and a zero-quantity part line can carry a
nonzero process cost (concrete instance: 25). -/
theorem compute_process_costs_zero_qty (steps : List ProcessStep)
    (pmap : ProcessesMap) (pc : String) :
    ((compute_process_costs steps pmap 0 pc).1
        = ((steps.filter fun s => s.enabled && (List.lookup s.process_code pmap).isSome).map
            (catalog_setup_cost pmap)).sum)
    ∧ (∀ r ∈ (compute_process_costs steps pmap 0 pc).2, r.runtime_cost = 0)
    ∧ (compute_process_costs [⟨true, "CUT", 2⟩] [("CUT", ⟨"Cutting", 3, 25⟩)] 0 "P1").1
        = 25 := by
  refine ⟨?_, ?_, ?_⟩
  · have h3 : ((steps.filter fun s => s.enabled && (List.lookup s.process_code pmap).isSome).map
          fun s => (stepRow pmap 0 pc s).total_cost)
        = ((steps.filter fun s => s.enabled && (List.lookup s.process_code pmap).isSome).map
          (catalog_setup_cost pmap)) := by
      apply List.map_congr_left
      intro s _
      simp only [stepRow, catalog_setup_cost, Int.cast_zero, mul_zero, zero_add]
    rw [compute_process_costs, foldl_cpcStep,
      show (((0 : ℚ), ([] : List ProcessRow)).1 = (0 : ℚ)) from rfl, zero_add,
      sum_enabled_eq_sum_known pmap 0 pc steps, h3]
  · intro r hr
    rw [compute_process_costs, foldl_cpcStep] at hr
    simp only [List.nil_append] at hr
    obtain ⟨s, _, rfl⟩ := List.mem_map.mp hr
    simp [stepRow]
  · show (0 : ℚ) + (2 * 3 * ((0 : Int) : ℚ) + 25) = 25
    norm_num

/-! ### Sheet layout (src/app.py lines 99-143) -/

/-- One entry of a material's `sheet_options` list (`.get` defaults 0.0
applied at record construction). -/
structure SheetOption where
  sheet_length_mm : ℚ
  sheet_width_mm : ℚ
  thickness_mm : ℚ
  sheet_price : ℚ
deriving Repr, DecidableEq

/-- One entry of the `parts` catalog (fields read by the engine; `.get`
defaults — edge margin 10, kerf 2, rotation allowed, nest efficiency 0.85,
blank sizes and thickness 0.0 — applied at record construction). -/
structure Part where
  part_code : String
  name : String
  material_code : String
  thickness_mm : ℚ
  blank_length_mm : ℚ
  blank_width_mm : ℚ
  allow_rotate : Bool
  edge_margin_mm : ℚ
  kerf_mm : ℚ
  nest_efficiency : ℚ
  process_steps : List ProcessStep
deriving Repr, DecidableEq

/-- The dictionary returned by `compute_sheet_layout` (lines 136-143). -/
structure LayoutResult where
  count_a : Int
  count_b : Int
  raw_count : Int
  pieces_per_sheet_calc : Int
  pieces_per_sheet : Int
  sheets_needed : Int
deriving Repr, DecidableEq

/-- `compute_sheet_layout` of src/app.py lines 99-143. -/
def compute_sheet_layout (sheet_option : SheetOption) (part : Part) (qty : Int)
    (pieces_override : Option Int) : LayoutResult :=
  let sheet_length := sheet_option.sheet_length_mm
  let sheet_width := sheet_option.sheet_width_mm
  let edge_margin := part.edge_margin_mm
  let kerf := part.kerf_mm
  let allow_rotate := part.allow_rotate
  let nest_efficiency := part.nest_efficiency
  let blank_length := part.blank_length_mm
  let blank_width := part.blank_width_mm
  let usable_L := max (sheet_length - 2 * edge_margin) 0
  let usable_W := max (sheet_width - 2 * edge_margin) 0
  let pitch_L := blank_length + kerf
  let pitch_W := blank_width + kerf
  let nx_a : Int := if 0 < pitch_L then ⌊usable_L / pitch_L⌋ else 0
  let ny_a : Int := if 0 < pitch_W then ⌊usable_W / pitch_W⌋ else 0
  let count_a := nx_a * ny_a
  -- lines 123-129: `nx_b = ny_b = count_b = 0`, overwritten only when rotation is allowed
  let count_b : Int :=
    if allow_rotate then
      (if 0 < pitch_W then ⌊usable_L / pitch_W⌋ else 0) *
        (if 0 < pitch_L then ⌊usable_W / pitch_L⌋ else 0)
    else 0
  let raw_count := max count_a count_b
  let pieces_calc : Int :=
    if 0 < raw_count then max 1 ⌊(raw_count : ℚ) * nest_efficiency⌋ else 1
  -- Python truthiness on line 133: `pieces_override if pieces_override and
  -- pieces_override > 0 else pieces_calc` — a positive override wins,
  -- `None`, `0` and negatives fall back to `pieces_calc`.
  let pieces_per_sheet : Int :=
    match pieces_override with
    | some o => if 0 < o then o else pieces_calc
    | none => pieces_calc
  let sheets_needed : Int :=
    if 0 < pieces_per_sheet then ⌈(qty : ℚ) / (pieces_per_sheet : ℚ)⌉ else qty
  ⟨count_a, count_b, raw_count, pieces_calc, pieces_per_sheet, sheets_needed⟩

theorem csl_count_a (so : SheetOption) (p : Part) (qty : Int) (ov : Option Int) :
    (compute_sheet_layout so p qty ov).count_a
      = (if 0 < p.blank_length_mm + p.kerf_mm then
            ⌊max (so.sheet_length_mm - 2 * p.edge_margin_mm) 0 / (p.blank_length_mm + p.kerf_mm)⌋
          else 0)
        * (if 0 < p.blank_width_mm + p.kerf_mm then
            ⌊max (so.sheet_width_mm - 2 * p.edge_margin_mm) 0 / (p.blank_width_mm + p.kerf_mm)⌋
          else 0) := rfl

theorem csl_count_b (so : SheetOption) (p : Part) (qty : Int) (ov : Option Int) :
    (compute_sheet_layout so p qty ov).count_b
      = (if p.allow_rotate then
          (if 0 < p.blank_width_mm + p.kerf_mm then
              ⌊max (so.sheet_length_mm - 2 * p.edge_margin_mm) 0 / (p.blank_width_mm + p.kerf_mm)⌋
            else 0)
          * (if 0 < p.blank_length_mm + p.kerf_mm then
              ⌊max (so.sheet_width_mm - 2 * p.edge_margin_mm) 0 / (p.blank_length_mm + p.kerf_mm)⌋
            else 0)
        else 0) := rfl

theorem csl_raw_count (so : SheetOption) (p : Part) (qty : Int) (ov : Option Int) :
    (compute_sheet_layout so p qty ov).raw_count
      = max (compute_sheet_layout so p qty ov).count_a
          (compute_sheet_layout so p qty ov).count_b := rfl

theorem csl_pieces_calc (so : SheetOption) (p : Part) (qty : Int) (ov : Option Int) :
    (compute_sheet_layout so p qty ov).pieces_per_sheet_calc
      = (if 0 < (compute_sheet_layout so p qty ov).raw_count then
          max 1 ⌊((compute_sheet_layout so p qty ov).raw_count : ℚ) * p.nest_efficiency⌋
        else 1) := rfl

theorem csl_pieces_per_sheet (so : SheetOption) (p : Part) (qty : Int) (ov : Option Int) :
    (compute_sheet_layout so p qty ov).pieces_per_sheet
      = (match ov with
         | some o => if 0 < o then o else (compute_sheet_layout so p qty ov).pieces_per_sheet_calc
         | none => (compute_sheet_layout so p qty ov).pieces_per_sheet_calc) := rfl

theorem csl_sheets_needed_raw (so : SheetOption) (p : Part) (qty : Int) (ov : Option Int) :
    (compute_sheet_layout so p qty ov).sheets_needed
      = (if 0 < (compute_sheet_layout so p qty ov).pieces_per_sheet then
          ⌈(qty : ℚ) / ((compute_sheet_layout so p qty ov).pieces_per_sheet : ℚ)⌉
        else qty) := rfl

theorem pieces_calc_ge_one (so : SheetOption) (p : Part) (qty : Int) (ov : Option Int) :
    1 ≤ (compute_sheet_layout so p qty ov).pieces_per_sheet_calc := by
  rw [csl_pieces_calc]
  split
  · exact le_max_left 1 _
  · exact le_refl 1

theorem pieces_per_sheet_pos (so : SheetOption) (p : Part) (qty : Int) (ov : Option Int) :
    0 < (compute_sheet_layout so p qty ov).pieces_per_sheet := by
  have h1 := pieces_calc_ge_one so p qty ov
  rw [csl_pieces_per_sheet]
  match ov with
  | none => exact lt_of_lt_of_le zero_lt_one h1
  | some o =>
    dsimp only
    split
    · assumption
    · exact lt_of_lt_of_le zero_lt_one h1

theorem csl_sheets_needed (so : SheetOption) (p : Part) (qty : Int) (ov : Option Int) :
    (compute_sheet_layout so p qty ov).sheets_needed
      = ⌈(qty : ℚ) / ((compute_sheet_layout so p qty ov).pieces_per_sheet : ℚ)⌉ := by
  rw [csl_sheets_needed_raw, if_pos (pieces_per_sheet_pos so p qty ov)]

theorem orientation_count_nonneg (L pitch : ℚ) :
    0 ≤ (if 0 < pitch then ⌊max L 0 / pitch⌋ else 0) := by
  split
  · exact Int.floor_nonneg.mpr (div_nonneg (le_max_right L 0) (le_of_lt (by assumption)))
  · exact le_refl 0

theorem raw_count_nonneg (so : SheetOption) (p : Part) (qty : Int) (ov : Option Int) :
    0 ≤ (compute_sheet_layout so p qty ov).raw_count := by
  rw [csl_raw_count]
  refine le_trans ?_ (le_max_left _ _)
  rw [csl_count_a]
  exact mul_nonneg (orientation_count_nonneg _ _) (orientation_count_nonneg _ _)

/-- C5: `compute_sheet_layout` computes `count_a` as the product of the two
per-axis floor counts (a factor is 0 when its pitch is ≤ 0), `count_b` the
same with axes swapped and 0 when rotation is disallowed,
`pieces_per_sheet_calc = max(1, floor(rawCount * nestEfficiency))` when
`rawCount > 0` and 1 otherwise (hence always ≥ 1),
`pieces_per_sheet` equal to a positive override when supplied and to
`pieces_per_sheet_calc` otherwise, and
`sheets_needed = ceil(qty / pieces_per_sheet)`. -/
theorem compute_sheet_layout_spec (so : SheetOption) (p : Part) (qty : Int)
    (ov : Option Int) :
    ((compute_sheet_layout so p qty ov).count_a
      = (if 0 < p.blank_length_mm + p.kerf_mm then
            ⌊max (so.sheet_length_mm - 2 * p.edge_margin_mm) 0 / (p.blank_length_mm + p.kerf_mm)⌋
          else 0)
        * (if 0 < p.blank_width_mm + p.kerf_mm then
            ⌊max (so.sheet_width_mm - 2 * p.edge_margin_mm) 0 / (p.blank_width_mm + p.kerf_mm)⌋
          else 0))
    ∧ ((compute_sheet_layout so p qty ov).count_b
      = (if p.allow_rotate then
          (if 0 < p.blank_width_mm + p.kerf_mm then
              ⌊max (so.sheet_length_mm - 2 * p.edge_margin_mm) 0 / (p.blank_width_mm + p.kerf_mm)⌋
            else 0)
          * (if 0 < p.blank_length_mm + p.kerf_mm then
              ⌊max (so.sheet_width_mm - 2 * p.edge_margin_mm) 0 / (p.blank_length_mm + p.kerf_mm)⌋
            else 0)
        else 0))
    ∧ ((compute_sheet_layout so p qty ov).raw_count
      = max (compute_sheet_layout so p qty ov).count_a (compute_sheet_layout so p qty ov).count_b)
    ∧ ((compute_sheet_layout so p qty ov).pieces_per_sheet_calc
      = (if 0 < (compute_sheet_layout so p qty ov).raw_count then
          max 1 ⌊((compute_sheet_layout so p qty ov).raw_count : ℚ) * p.nest_efficiency⌋
        else 1))
    ∧ (1 ≤ (compute_sheet_layout so p qty ov).pieces_per_sheet_calc)
    ∧ ((compute_sheet_layout so p qty ov).pieces_per_sheet
      = (match ov with
         | some o => if 0 < o then o else (compute_sheet_layout so p qty ov).pieces_per_sheet_calc
         | none => (compute_sheet_layout so p qty ov).pieces_per_sheet_calc))
    ∧ ((compute_sheet_layout so p qty ov).sheets_needed
      = ⌈(qty : ℚ) / ((compute_sheet_layout so p qty ov).pieces_per_sheet : ℚ)⌉) :=
  ⟨csl_count_a so p qty ov, csl_count_b so p qty ov, csl_raw_count so p qty ov,
   csl_pieces_calc so p qty ov, pieces_calc_ge_one so p qty ov,
   csl_pieces_per_sheet so p qty ov, csl_sheets_needed so p qty ov⟩

/-- C8: `pieces_per_sheet_calc` is monotonically non-decreasing in
`nest_efficiency` over (0, 1], all other inputs held fixed. -/
theorem pieces_calc_monotone (so : SheetOption) (p : Part) (qty : Int) (ov : Option Int)
    (e1 e2 : ℚ) (h0 : 0 < e1) (h12 : e1 ≤ e2) (h21 : e2 ≤ 1) :
    (compute_sheet_layout so { p with nest_efficiency := e1 } qty ov).pieces_per_sheet_calc
      ≤ (compute_sheet_layout so { p with nest_efficiency := e2 } qty ov).pieces_per_sheet_calc := by
  have hraw : (compute_sheet_layout so { p with nest_efficiency := e2 } qty ov).raw_count
      = (compute_sheet_layout so { p with nest_efficiency := e1 } qty ov).raw_count := rfl
  have hr0 : (0 : ℚ) ≤ ((compute_sheet_layout so { p with nest_efficiency := e1 } qty ov).raw_count : ℚ) := by
    exact_mod_cast raw_count_nonneg so { p with nest_efficiency := e1 } qty ov
  rw [csl_pieces_calc, csl_pieces_calc, hraw]
  dsimp only
  by_cases hpos :
      0 < (compute_sheet_layout so { p with nest_efficiency := e1 } qty ov).raw_count
  · rw [if_pos hpos, if_pos hpos]
    exact max_le_max (le_refl 1) (Int.floor_mono (mul_le_mul_of_nonneg_left h12 hr0))
  · rw [if_neg hpos, if_neg hpos]

/-- Concrete sheet stock used by evaluation witnesses. -/
def demoSheet : SheetOption := ⟨2440, 1220, 2, 300⟩

/-- Concrete part used by evaluation witnesses. -/
def demoPart : Part := ⟨"P1", "bracket", "M1", 2, 200, 100, true, 10, 2, 85 / 100, []⟩

theorem pieces_calc_monotone_witness :
    ((0 : ℚ) < 1 / 2 ∧ (1 / 2 : ℚ) ≤ 1 ∧ (1 : ℚ) ≤ 1)
    ∧ (compute_sheet_layout demoSheet { demoPart with nest_efficiency := 1 / 2 } 100 none).pieces_per_sheet_calc
      ≤ (compute_sheet_layout demoSheet { demoPart with nest_efficiency := 1 } 100 none).pieces_per_sheet_calc :=
  ⟨⟨by norm_num, by norm_num, le_refl 1⟩,
   pieces_calc_monotone demoSheet demoPart 100 none (1 / 2) 1 (by norm_num) (by norm_num)
     (le_refl 1)⟩

/-! ### Sheet option selection (src/app.py lines 146-177) -/

/-- The row dictionary built at src/app.py lines 163-173. The display
string `sheet_spec` (an f-string over the three dimensions) is modelled by
the triple of dimensions it formats. -/
structure SheetRow where
  sheet_spec : ℚ × ℚ × ℚ
  sheet_price : ℚ
  pieces_per_sheet : Int
  sheets_needed : Int
  material_cost : ℚ
  sheet_option : SheetOption
  calc_result : LayoutResult  -- the source dict key is named after the layout calc
deriving Repr, DecidableEq

/-- Loop body of lines 159-173: a no-override layout and
`cost = calc["sheets_needed"] * sheet_price`. -/
def mkSheetRow (part : Part) (qty : Int) (opt : SheetOption) : SheetRow :=
  let layout := compute_sheet_layout opt part qty none
  let cost := (layout.sheets_needed : ℚ) * opt.sheet_price
  ⟨(opt.sheet_length_mm, opt.sheet_width_mm, opt.thickness_mm), opt.sheet_price,
    layout.pieces_per_sheet, layout.sheets_needed, cost, opt, layout⟩

/-- `min(diffs) if diffs else 0.0` (line 155): Python's `min` over a list. -/
def pymin : List ℚ → ℚ
  | [] => 0
  | x :: xs => xs.foldl min x

/-- Sort relation of `sorted(rows, key=lambda r: r["material_cost"])`. -/
def rowLE (a b : SheetRow) : Prop := a.material_cost ≤ b.material_cost

instance : DecidableRel rowLE := fun a b =>
  inferInstanceAs (Decidable (a.material_cost ≤ b.material_cost))

instance : IsTotal SheetRow rowLE := ⟨fun a b => le_total a.material_cost b.material_cost⟩

instance : IsTrans SheetRow rowLE := ⟨fun _ _ _ h1 h2 => le_trans h1 h2⟩

/-- `evaluate_sheet_options` of src/app.py lines 146-177. -/
def evaluate_sheet_options (sheet_options : List SheetOption) (part : Part) (qty : Int) :
    List SheetRow × Option SheetRow :=
  if sheet_options.isEmpty then ([], none)
  else
    let target_thickness := part.thickness_mm
    let diffs := sheet_options.map fun opt => |opt.thickness_mm - target_thickness|
    let min_diff := pymin diffs
    let candidates := sheet_options.filter fun opt =>
      decide (|opt.thickness_mm - target_thickness| = min_diff)
    let rows := candidates.map (mkSheetRow part qty)
    let rows_sorted := List.insertionSort rowLE rows
    (rows_sorted, rows_sorted.head?)

/-- The ranked rows returned by `evaluate_sheet_options` on a non-empty
option list, written out. -/
def esoRows (sheet_options : List SheetOption) (part : Part) (qty : Int) : List SheetRow :=
  List.insertionSort rowLE
    ((sheet_options.filter fun opt =>
        decide (|opt.thickness_mm - part.thickness_mm|
          = pymin (sheet_options.map fun o2 => |o2.thickness_mm - part.thickness_mm|))).map
      (mkSheetRow part qty))

theorem eso_eq (opts : List SheetOption) (part : Part) (qty : Int)
    (h : opts.isEmpty = false) :
    evaluate_sheet_options opts part qty
      = (esoRows opts part qty, (esoRows opts part qty).head?) := by
  simp only [evaluate_sheet_options, h, Bool.false_eq_true, if_false]
  rfl

theorem foldl_min_le_self : ∀ (xs : List ℚ) (a : ℚ), xs.foldl min a ≤ a := by
  intro xs
  induction xs with
  | nil => intro a; exact le_refl a
  | cons x xs ih =>
    intro a
    exact le_trans (ih (min a x)) (min_le_left a x)

theorem foldl_min_le_mem : ∀ (xs : List ℚ) (a : ℚ), ∀ d ∈ xs, xs.foldl min a ≤ d := by
  intro xs
  induction xs with
  | nil => intro a d hd; exact absurd hd (List.not_mem_nil d)
  | cons x xs ih =>
    intro a d hd
    rcases List.mem_cons.mp hd with rfl | hdx
    · exact le_trans (foldl_min_le_self xs (min a d)) (min_le_right a d)
    · exact ih (min a x) d hdx

theorem foldl_min_mem : ∀ (xs : List ℚ) (a : ℚ), xs.foldl min a ∈ a :: xs := by
  intro xs
  induction xs with
  | nil => intro a; exact List.mem_cons_self a []
  | cons x xs ih =>
    intro a
    have hred : (x :: xs).foldl min a = xs.foldl min (min a x) := rfl
    rw [hred]
    rcases List.mem_cons.mp (ih (min a x)) with hm | hm
    · rw [hm]
      rcases min_choice a x with hax | hax
      · rw [hax]
        exact List.mem_cons_self a (x :: xs)
      · rw [hax]
        exact List.mem_cons_of_mem a (List.mem_cons_self x xs)
    · exact List.mem_cons_of_mem a (List.mem_cons_of_mem x hm)

theorem pymin_le {l : List ℚ} (d : ℚ) (hd : d ∈ l) : pymin l ≤ d := by
  cases l with
  | nil => exact absurd hd (List.not_mem_nil d)
  | cons x xs =>
    rcases List.mem_cons.mp hd with rfl | hdx
    · exact foldl_min_le_self xs d
    · exact foldl_min_le_mem xs x d hdx

theorem pymin_mem {l : List ℚ} (h : l ≠ []) : pymin l ∈ l := by
  cases l with
  | nil => exact absurd rfl h
  | cons x xs => exact foldl_min_mem xs x

/-- An option is a closest-thickness match among `opts` for `part`. -/
def closestThickness (opts : List SheetOption) (part : Part) (o : SheetOption) : Prop :=
  ∀ o2 ∈ opts, |o.thickness_mm - part.thickness_mm| ≤ |o2.thickness_mm - part.thickness_mm|

instance (opts : List SheetOption) (part : Part) (o : SheetOption) :
    Decidable (closestThickness opts part o) :=
  List.decidableBAll _ opts

theorem closest_iff (opts : List SheetOption) (part : Part) (hne : opts ≠ [])
    (o : SheetOption) (ho : o ∈ opts) :
    (|o.thickness_mm - part.thickness_mm|
        = pymin (opts.map fun o2 => |o2.thickness_mm - part.thickness_mm|))
      ↔ closestThickness opts part o := by
  have hmapne : (opts.map fun o2 => |o2.thickness_mm - part.thickness_mm|) ≠ [] := by
    intro h0
    exact hne (List.map_eq_nil_iff.mp h0)
  constructor
  · intro h o2 ho2
    rw [h]
    exact pymin_le _ (List.mem_map_of_mem _ ho2)
  · intro h
    obtain ⟨o3, ho3, hval⟩ := List.mem_map.mp (pymin_mem hmapne)
    apply le_antisymm
    · rw [← hval]
      exact h o3 ho3
    · exact pymin_le _ (List.mem_map_of_mem _ ho)

theorem insertionSort_rowLE_ne_nil {l : List SheetRow} (h : l ≠ []) :
    List.insertionSort rowLE l ≠ [] := by
  intro h0
  apply h
  have hlen := (List.perm_insertionSort rowLE l).length_eq
  rw [h0] at hlen
  exact List.length_eq_zero.mp hlen.symm

/-- C4: on a non-empty option list, `evaluate_sheet_options` keeps exactly
the options whose thickness difference to the part is minimal (all ties
kept), prices each with a no-override layout
(`material_cost = sheets_needed * sheet_price`), returns the rows sorted
ascending by `material_cost`, and recommends the first row of that ranking,
whose `material_cost` is minimal among all candidates; on an empty option
list it returns an empty ranking and no recommendation. -/
theorem evaluate_sheet_options_spec (opts : List SheetOption) (part : Part) (qty : Int) :
    (opts = [] → evaluate_sheet_options opts part qty = ([], none))
    ∧ (opts ≠ [] →
        ((evaluate_sheet_options opts part qty).1).Perm
            ((opts.filter fun o => decide (closestThickness opts part o)).map
              (mkSheetRow part qty))
        ∧ List.Sorted rowLE (evaluate_sheet_options opts part qty).1
        ∧ (evaluate_sheet_options opts part qty).2
            = (evaluate_sheet_options opts part qty).1.head?
        ∧ (∀ r ∈ (evaluate_sheet_options opts part qty).1,
            r.material_cost
              = ((compute_sheet_layout r.sheet_option part qty none).sheets_needed : ℚ)
                  * r.sheet_option.sheet_price)
        ∧ ∃ r, (evaluate_sheet_options opts part qty).2 = some r
            ∧ ∀ s ∈ (evaluate_sheet_options opts part qty).1,
                r.material_cost ≤ s.material_cost) := by
  constructor
  · rintro rfl; rfl
  · intro hne
    have hE : opts.isEmpty = false := by
      cases opts with
      | nil => exact absurd rfl hne
      | cons a l => rfl
    have heq := eso_eq opts part qty hE
    have hfil : (opts.filter fun o =>
          decide (|o.thickness_mm - part.thickness_mm|
            = pymin (opts.map fun o2 => |o2.thickness_mm - part.thickness_mm|)))
        = opts.filter fun o => decide (closestThickness opts part o) := by
      apply List.filter_congr
      intro o ho
      rw [decide_eq_decide]
      exact closest_iff opts part hne o ho
    have hperm : (esoRows opts part qty).Perm
        ((opts.filter fun o => decide (closestThickness opts part o)).map
          (mkSheetRow part qty)) := by
      unfold esoRows
      rw [hfil]
      exact List.perm_insertionSort rowLE _
    have hsorted : List.Sorted rowLE (esoRows opts part qty) :=
      List.sorted_insertionSort rowLE _
    have hrowsne : esoRows opts part qty ≠ [] := by
      have hmapne : (opts.map fun o2 => |o2.thickness_mm - part.thickness_mm|) ≠ [] := by
        intro h0
        exact hne (List.map_eq_nil_iff.mp h0)
      obtain ⟨o3, ho3, hval⟩ := List.mem_map.mp (pymin_mem hmapne)
      have hmemf : o3 ∈ opts.filter fun o =>
          decide (|o.thickness_mm - part.thickness_mm|
            = pymin (opts.map fun o2 => |o2.thickness_mm - part.thickness_mm|)) := by
        apply List.mem_filter.mpr
        exact ⟨ho3, decide_eq_true hval⟩
      apply insertionSort_rowLE_ne_nil
      exact List.ne_nil_of_mem (List.mem_map_of_mem (mkSheetRow part qty) hmemf)
    obtain ⟨r, rest, hcons⟩ := List.exists_cons_of_ne_nil hrowsne
    refine ⟨?_, ?_, ?_, ?_, ?_⟩
    · rw [heq]
      exact hperm
    · rw [heq]
      exact hsorted
    · rw [heq]
    · rw [heq]
      intro s hs
      have hs' : s ∈ (opts.filter fun o => decide (closestThickness opts part o)).map
          (mkSheetRow part qty) := hperm.mem_iff.mp hs
      obtain ⟨o, _, rfl⟩ := List.mem_map.mp hs'
      rfl
    · rw [heq]
      refine ⟨r, ?_, ?_⟩
      · show (esoRows opts part qty).head? = some r
        rw [hcons]
        rfl
      · intro s hs
        show r.material_cost ≤ s.material_cost
        rw [hcons] at hs hsorted
        rcases List.mem_cons.mp hs with rfl | hsr
        · exact le_refl _
        · exact List.rel_of_sorted_cons hsorted s hsr

theorem evaluate_sheet_options_spec_witness :
    (([] : List SheetOption) = [])
    ∧ evaluate_sheet_options [] demoPart 100 = ([], none) :=
  ⟨rfl, (evaluate_sheet_options_spec [] demoPart 100).1 rfl⟩

/-! ### Cost rollup and pricing modes (src/app.py lines 597-611) -/

/-- The two values of the `pricing_mode` selectbox (line 371-376). -/
inductive PricingMode
  | gross_margin
  | markup
deriving Repr, DecidableEq

/-- The pricing-mode branch of src/app.py lines 604-607. -/
def final_price_before_tier (pricing_mode : PricingMode) (total_cost margin_pct : ℚ) : ℚ :=
  if pricing_mode = PricingMode.gross_margin then
    if margin_pct < 1 then total_cost / (1 - margin_pct) else total_cost
  else
    total_cost * (1 + margin_pct)

theorem fpbt_gross_lt (tc mp : ℚ) (h : mp < 1) :
    final_price_before_tier PricingMode.gross_margin tc mp = tc / (1 - mp) := by
  simp [final_price_before_tier, h]

theorem fpbt_gross_ge (tc mp : ℚ) (h : 1 ≤ mp) :
    final_price_before_tier PricingMode.gross_margin tc mp = tc := by
  simp [final_price_before_tier, not_lt.mpr h]

theorem fpbt_markup (tc mp : ℚ) :
    final_price_before_tier PricingMode.markup tc mp = tc * (1 + mp) := by
  simp [final_price_before_tier]

/-- The rollup intermediates and final prices of src/app.py lines 597-611. -/
structure RollupResult where
  subtotal : ℚ
  overhead : ℚ
  pre_tax : ℚ
  tax : ℚ
  total_cost : ℚ
  final_price_total : ℚ
  unit_price : ℚ
  multiplier : ℚ
  matched_tier : Option Tier
deriving Repr, DecidableEq

/-- The cost rollup of src/app.py lines 597-611. -/
def quote_rollup (material_total process_total purchased_total packaging_total
    shipping_per_order overhead_pct tax_pct margin_pct : ℚ)
    (pricing_mode : PricingMode) (tiers : List Tier) (qty : Int) : RollupResult :=
  let shipping_cost := shipping_per_order
  let subtotal :=
    material_total + process_total + purchased_total + packaging_total + shipping_cost
  let overhead := subtotal * overhead_pct
  let pre_tax := subtotal + overhead
  let tax := pre_tax * tax_pct
  let total_cost := pre_tax + tax
  let fp0 := final_price_before_tier pricing_mode total_cost margin_pct
  let fm := find_multiplier tiers qty
  let final_price_total := fp0 * fm.1
  -- `unit_price = final_price_total / qty if qty else 0.0`
  let unit_price := if qty ≠ 0 then final_price_total / (qty : ℚ) else 0
  ⟨subtotal, overhead, pre_tax, tax, total_cost, final_price_total, unit_price, fm.1, fm.2⟩

/-- C2: for positive quantities the rollup computes
`subtotal = materialTotal + processTotal + purchasedTotal + packagingTotal + shipping`,
`overhead = subtotal * overheadPct`, `preTax = subtotal + overhead`,
`tax = preTax * taxPct`, `totalCost = preTax + tax`; in gross_margin mode the
pre-tier final price is `totalCost / (1 - marginPct)` unless `marginPct ≥ 1`
in which case it is `totalCost`, in markup mode it is
`totalCost * (1 + marginPct)`; the tier multiplier from `find_multiplier` is
applied multiplicatively, and `unitPrice = finalPrice / qty`. -/
theorem quote_rollup_spec (mt pt ut kt sh op tp mp : ℚ) (pm : PricingMode)
    (tiers : List Tier) (qty : Int) (hq : 0 < qty) :
    let r := quote_rollup mt pt ut kt sh op tp mp pm tiers qty
    r.subtotal = mt + pt + ut + kt + sh
    ∧ r.overhead = r.subtotal * op
    ∧ r.pre_tax = r.subtotal + r.overhead
    ∧ r.tax = r.pre_tax * tp
    ∧ r.total_cost = r.pre_tax + r.tax
    ∧ r.multiplier = (find_multiplier tiers qty).1
    ∧ r.matched_tier = (find_multiplier tiers qty).2
    ∧ (pm = PricingMode.gross_margin → mp < 1 →
        r.final_price_total = (r.total_cost / (1 - mp)) * r.multiplier)
    ∧ (pm = PricingMode.gross_margin → 1 ≤ mp →
        r.final_price_total = r.total_cost * r.multiplier)
    ∧ (pm = PricingMode.markup →
        r.final_price_total = (r.total_cost * (1 + mp)) * r.multiplier)
    ∧ r.unit_price = r.final_price_total / (qty : ℚ) := by
  intro r
  have hfp : r.final_price_total
      = final_price_before_tier pm r.total_cost mp * r.multiplier := rfl
  refine ⟨rfl, rfl, rfl, rfl, rfl, rfl, rfl, ?_, ?_, ?_, ?_⟩
  · rintro rfl hlt
    rw [hfp, fpbt_gross_lt r.total_cost mp hlt]
  · rintro rfl hge
    rw [hfp, fpbt_gross_ge r.total_cost mp hge]
  · rintro rfl
    rw [hfp, fpbt_markup r.total_cost mp]
  · have hq0 : qty ≠ 0 := ne_of_gt hq
    show (if qty ≠ 0 then r.final_price_total / (qty : ℚ) else 0)
        = r.final_price_total / (qty : ℚ)
    rw [if_pos hq0]

theorem quote_rollup_spec_witness :
    ((0 : Int) < 100)
    ∧ (quote_rollup 1000 200 0 50 120 (5 / 100) (13 / 100) (18 / 100)
        PricingMode.gross_margin [] 100).subtotal = 1000 + 200 + 0 + 50 + 120 :=
  ⟨by norm_num,
   (quote_rollup_spec 1000 200 0 50 120 (5 / 100) (13 / 100) (18 / 100)
      PricingMode.gross_margin [] 100 (by norm_num)).1⟩

/-- C6 counterexample: at totalCost = 0 and marginPct = 0.18 > 0, the markup
final price and the gross-margin final price coincide (both are 0), so the
claim's universal statement over every totalCost fails. -/
theorem margin_modes_coincide_at_zero :
    (0 : ℚ) < 18 / 100
    ∧ final_price_before_tier PricingMode.markup 0 (18 / 100)
        = final_price_before_tier PricingMode.gross_margin 0 (18 / 100) := by
  constructor
  · norm_num
  · rw [fpbt_markup, fpbt_gross_lt 0 (18 / 100) (by norm_num)]
    norm_num

/-- C6 (amended): for every nonzero totalCost and marginPct > 0 the markup
final price `totalCost * (1 + marginPct)` differs from the gross_margin final
price `totalCost / (1 - marginPct)` (clamped to totalCost when
marginPct ≥ 1); at marginPct = 0.18 markup yields `totalCost * 1.18` and
gross_margin yields `totalCost / 0.82`. -/
theorem margin_modes_differ (tc mp : ℚ) (htc : tc ≠ 0) (hmp : 0 < mp) :
    final_price_before_tier PricingMode.markup tc mp
        ≠ final_price_before_tier PricingMode.gross_margin tc mp
    ∧ final_price_before_tier PricingMode.markup tc (18 / 100) = tc * (118 / 100)
    ∧ final_price_before_tier PricingMode.gross_margin tc (18 / 100)
        = tc / (82 / 100) := by
  refine ⟨?_, ?_, ?_⟩
  · rw [fpbt_markup]
    by_cases hlt : mp < 1
    · rw [fpbt_gross_lt tc mp hlt]
      intro heq
      have h1m : (1 : ℚ) - mp ≠ 0 := by
        intro h0
        rw [sub_eq_zero] at h0
        exact absurd h0.symm (ne_of_lt hlt)
      have h2 : tc * (1 + mp) * (1 - mp) = tc := (eq_div_iff h1m).mp heq
      have h3 : tc * (mp * mp) = 0 := by linear_combination -h2
      rcases mul_eq_zero.mp h3 with h | h
      · exact htc h
      · rcases mul_eq_zero.mp h with h4 | h4 <;> exact absurd h4 (ne_of_gt hmp)
    · rw [fpbt_gross_ge tc mp (not_lt.mp hlt)]
      intro heq
      have h3 : tc * mp = 0 := by linear_combination heq
      rcases mul_eq_zero.mp h3 with h | h
      · exact htc h
      · exact absurd h (ne_of_gt hmp)
  · rw [fpbt_markup]
    norm_num
  · rw [fpbt_gross_lt tc (18 / 100) (by norm_num)]
    norm_num

theorem margin_modes_differ_witness :
    ((100 : ℚ) ≠ 0) ∧ ((0 : ℚ) < 18 / 100)
    ∧ (final_price_before_tier PricingMode.markup 100 (18 / 100)
          ≠ final_price_before_tier PricingMode.gross_margin 100 (18 / 100)
      ∧ final_price_before_tier PricingMode.markup 100 (18 / 100) = 100 * (118 / 100)
      ∧ final_price_before_tier PricingMode.gross_margin 100 (18 / 100)
          = 100 / (82 / 100)) :=
  ⟨by norm_num, by norm_num, margin_modes_differ 100 (18 / 100) (by norm_num) (by norm_num)⟩

/-! ### BOM line evaluation (src/app.py lines 286-299 and 386-595)

The quote tab loops over `product["bom_lines"]`, accumulating BOM rows,
process rows, the four cost buckets and the emitted warnings. Each
iteration's contribution is independent of the accumulators, so the loop is
embedded as a per-line evaluation combined monoidally in order. Display-only
output (`st.metric`, dataframes, `alternatives_export`) and the interactive
engineering-override expander (lines 460-487, inactive unless a checkbox is
ticked) are not part of the embedded computation. -/

/-- One entry of the `purchased_items` catalog (lines 534-561); `moq_qty`
stays raw because line 542 tests its Python truthiness. -/
structure PurchasedItem where
  item_code : String
  name : String
  unit_cost : ℚ
  uom : String
  waste_pct : ℚ
  moq_qty : Option ℚ
deriving Repr, DecidableEq

/-- The two fields of a `materials` entry read by the BOM loop
(lines 407-414); defaults `pricing_mode = "by_weight"`,
`sheet_options = []` applied at construction. -/
structure Material where
  pricing_mode : String
  sheet_options : List SheetOption
deriving Repr, DecidableEq

/-- The `type` tag attached to packaging rules at lines 296-299. -/
inductive PackKind
  | per_unit
  | per_carton
deriving Repr, DecidableEq

/-- One entry of `packaging_map` (lines 294-299, consumed at lines 563-595).
`qty_per_unit` and `units_per_carton` stay raw: line 569 uses the former as
a `.get` fallback and line 573 tests the latter's Python truthiness. -/
structure PackagingRule where
  rule_type : PackKind
  item_code : String
  unit_cost : ℚ
  qty_per_unit : Option ℚ
  qty_per_carton : ℚ
  units_per_carton : Option Int
deriving Repr, DecidableEq

/-- One entry of a product's `bom_lines` (fields read at lines 396-399);
`qty_per_unit` stays raw because line 569 re-reads it with a rule-dependent
default. -/
structure BomLine where
  line_type : String
  code : String
  qty_per_unit : Option ℚ
  optional : Bool
deriving Repr, DecidableEq

/-- The row dictionary appended to `bom_rows` (lines 516-532, 545-561,
579-595). -/
structure BomRow where
  line_type : String
  code : String
  name : String
  qty_total : ℚ
  uom : String
  unit_cost : ℚ
  line_total : ℚ
  material_cost : ℚ
  process_cost : ℚ
  sheet_spec : Option (ℚ × ℚ × ℚ)
  pieces_per_sheet : Option Int
  sheets_needed : Option Int
  optional : Bool
deriving Repr, DecidableEq

/-- The `st.warning` messages the BOM loop can emit, keyed by their format
string. -/
inductive Warning
  | partNotFound (code : String)
  | purchasedNotFound (code : String)
  | packagingNotFound (code : String)
  | noSheetOptions (code : String)
deriving Repr, DecidableEq

/-- The catalog maps built at lines 288-299 plus the order context
(`product.get("units_per_carton")` and the ordered quantity). -/
structure QuoteEnv where
  parts_map : List (String × Part)
  materials_map : List (String × Material)
  processes_map : ProcessesMap
  purchased_map : List (String × PurchasedItem)
  packaging_map : List (String × PackagingRule)
  product_units_per_carton : Option Int
  qty : Int
deriving Repr

/-- The accumulators of the BOM loop (lines 386-392) plus emitted warnings. -/
structure QuoteOutcome where
  bom_rows : List BomRow
  process_breakdown : List ProcessRow
  material_total : ℚ
  process_total : ℚ
  purchased_total : ℚ
  packaging_total : ℚ
  warnings : List Warning
deriving Repr, DecidableEq

def emptyOutcome : QuoteOutcome := ⟨[], [], 0, 0, 0, 0, []⟩

def combine (a b : QuoteOutcome) : QuoteOutcome :=
  ⟨a.bom_rows ++ b.bom_rows, a.process_breakdown ++ b.process_breakdown,
   a.material_total + b.material_total, a.process_total + b.process_total,
   a.purchased_total + b.purchased_total, a.packaging_total + b.packaging_total,
   a.warnings ++ b.warnings⟩

/-- Python `a or b` on an optional integer: `a` wins when truthy (present
and nonzero), otherwise `b` (line 573). -/
def pyOrInt (a b : Option Int) : Option Int :=
  match a with
  | some n => if n ≠ 0 then some n else b
  | none => b

/-- One iteration of the BOM loop (lines 395-595): dispatch on the line
type, resolve the code in its catalog (warn and skip when missing), price
the line, and return its contribution to rows, totals and warnings. -/
def evalBomLine (env : QuoteEnv) (line : BomLine) : QuoteOutcome :=
  if line.line_type = "part" then
    match List.lookup line.code env.parts_map with
    | none => ⟨[], [], 0, 0, 0, 0, [Warning.partNotFound line.code]⟩
    | some part =>
      let qty_per_unit := line.qty_per_unit.getD 1
      let part_qty : Int := ⌈(env.qty : ℚ) * qty_per_unit⌉
      let material :=
        (List.lookup part.material_code env.materials_map).getD ⟨"by_weight", []⟩
      let sheet_and_warn : Option SheetRow × List Warning :=
        if material.pricing_mode = "by_sheet" then
          match (evaluate_sheet_options material.sheet_options part part_qty).2 with
          | some recommended => (some recommended, [])
          | none => (none, [Warning.noSheetOptions line.code])
        else (none, [])
      let sheet_result := sheet_and_warn.1
      let material_cost : ℚ :=
        match sheet_result with
        | some r => r.material_cost
        | none => 0
      let pcr := compute_process_costs part.process_steps env.processes_map part_qty
        part.part_code
      let line_total := material_cost + pcr.1
      let row : BomRow :=
        ⟨"part", part.part_code, part.name, (part_qty : ℚ), "pc",
          if part_qty ≠ 0 then line_total / (part_qty : ℚ) else 0,
          line_total, material_cost, pcr.1,
          sheet_result.map (·.sheet_spec), sheet_result.map (·.pieces_per_sheet),
          sheet_result.map (·.sheets_needed), line.optional⟩
      ⟨[row], pcr.2, material_cost, pcr.1, 0, 0, sheet_and_warn.2⟩
  else if line.line_type = "purchased" then
    match List.lookup line.code env.purchased_map with
    | none => ⟨[], [], 0, 0, 0, 0, [Warning.purchasedNotFound line.code]⟩
    | some item =>
      let qty_per_unit := line.qty_per_unit.getD 1
      let base_qty : ℚ := (env.qty : ℚ) * qty_per_unit
      -- `total_qty = max(base_qty, moq_qty) if moq_qty else base_qty`
      let total_qty : ℚ :=
        match item.moq_qty with
        | some m => if m ≠ 0 then max base_qty m else base_qty
        | none => base_qty
      let line_total := total_qty * item.unit_cost * (1 + item.waste_pct)
      let row : BomRow :=
        ⟨"purchased", item.item_code, item.name, total_qty, item.uom, item.unit_cost,
          line_total, 0, 0, none, none, none, line.optional⟩
      ⟨[row], [], 0, 0, line_total, 0, []⟩
  else if line.line_type = "packaging" then
    match List.lookup line.code env.packaging_map with
    | none => ⟨[], [], 0, 0, 0, 0, [Warning.packagingNotFound line.code]⟩
    | some rule =>
      let tq_lt : ℚ × ℚ :=
        match rule.rule_type with
        | PackKind.per_unit =>
          let qty_per_unit_rule := line.qty_per_unit.getD (rule.qty_per_unit.getD 1)
          let total_qty := (env.qty : ℚ) * qty_per_unit_rule
          (total_qty, total_qty * rule.unit_cost)
        | PackKind.per_carton =>
          let upc := pyOrInt rule.units_per_carton env.product_units_per_carton
          -- `cartons = math.ceil(qty / units_per_carton) if units_per_carton else 0`
          let cartons : Int :=
            match upc with
            | some n => if n ≠ 0 then ⌈(env.qty : ℚ) / (n : ℚ)⌉ else 0
            | none => 0
          let total_qty := (cartons : ℚ) * rule.qty_per_carton
          (total_qty, total_qty * rule.unit_cost)
      let row : BomRow :=
        ⟨"packaging", rule.item_code, rule.item_code, tq_lt.1, "pack", rule.unit_cost,
          tq_lt.2, 0, 0, none, none, none, line.optional⟩
      ⟨[row], [], 0, 0, 0, tq_lt.2, []⟩
  else emptyOutcome

/-- The whole BOM loop: per-line contributions combined in order. -/
def evalBomLines (env : QuoteEnv) : List BomLine → QuoteOutcome
  | [] => emptyOutcome
  | l :: ls => combine (evalBomLine env l) (evalBomLines env ls)

/-- A BOM line whose code resolves in no catalog for its type
(lines 402-404, 535-538, 564-567). -/
def unresolvable (env : QuoteEnv) (line : BomLine) : Prop :=
  (line.line_type = "part" ∧ List.lookup line.code env.parts_map = none)
  ∨ (line.line_type = "purchased" ∧ List.lookup line.code env.purchased_map = none)
  ∨ (line.line_type = "packaging" ∧ List.lookup line.code env.packaging_map = none)

/-- The warning the loop emits for an unresolvable line of each type. -/
def notFoundWarning (line : BomLine) : Warning :=
  if line.line_type = "part" then Warning.partNotFound line.code
  else if line.line_type = "purchased" then Warning.purchasedNotFound line.code
  else Warning.packagingNotFound line.code

theorem combine_assoc (a b c : QuoteOutcome) :
    combine (combine a b) c = combine a (combine b c) := by
  simp [combine, List.append_assoc, add_assoc]

theorem combine_empty_left (a : QuoteOutcome) : combine emptyOutcome a = a := by
  simp [combine, emptyOutcome]

theorem evalBomLines_append (env : QuoteEnv) (l1 l2 : List BomLine) :
    evalBomLines env (l1 ++ l2)
      = combine (evalBomLines env l1) (evalBomLines env l2) := by
  induction l1 with
  | nil =>
    show evalBomLines env l2 = combine emptyOutcome (evalBomLines env l2)
    rw [combine_empty_left]
  | cons a l1 ih =>
    show combine (evalBomLine env a) (evalBomLines env (l1 ++ l2))
        = combine (combine (evalBomLine env a) (evalBomLines env l1)) (evalBomLines env l2)
    rw [ih, combine_assoc]

theorem evalBomLine_unresolvable (env : QuoteEnv) (line : BomLine)
    (h : unresolvable env line) :
    evalBomLine env line = ⟨[], [], 0, 0, 0, 0, [notFoundWarning line]⟩ := by
  rcases h with ⟨ht, hl⟩ | ⟨ht, hl⟩ | ⟨ht, hl⟩ <;>
    simp [evalBomLine, notFoundWarning, ht, hl]

/-- C7: a BOM line whose code is not found in its catalog (part not in the
parts map, purchased item not in the purchased map, or packaging rule not in
the packaging map) is excluded from the computation: the run over the BOM
with that line equals the run without it in every accumulator (all four cost
buckets, BOM rows and process rows), except that exactly one warning for the
unresolvable line is inserted at its position in the warning list. -/
theorem bom_unresolvable_line_excluded (env : QuoteEnv) (l1 l2 : List BomLine)
    (line : BomLine) (h : unresolvable env line) :
    evalBomLines env (l1 ++ line :: l2)
      = { evalBomLines env (l1 ++ l2) with
          warnings := (evalBomLines env l1).warnings
            ++ notFoundWarning line :: (evalBomLines env l2).warnings }
    ∧ (evalBomLines env (l1 ++ l2)).warnings
        = (evalBomLines env l1).warnings ++ (evalBomLines env l2).warnings := by
  have hline := evalBomLine_unresolvable env line h
  have h1 : evalBomLines env (l1 ++ line :: l2)
      = combine (evalBomLines env l1)
          (combine (evalBomLine env line) (evalBomLines env l2)) := by
    rw [evalBomLines_append]
    rfl
  have h2 := evalBomLines_append env l1 l2
  rw [h1, h2, hline]
  constructor
  · simp [combine]
  · rfl

/-- Concrete purchased item for the C7 witness. -/
def demoItem : PurchasedItem := ⟨"I1", "screw", 2, "pc", 1 / 10, some 50⟩

/-- Concrete environment for the C7 witness: only purchased item I1 exists. -/
def demoEnv : QuoteEnv := ⟨[], [], [], [("I1", demoItem)], [], none, 10⟩

/-- A resolvable purchased BOM line for the C7 witness. -/
def demoPLine : BomLine := ⟨"purchased", "I1", some 2, false⟩

/-- A part BOM line whose code resolves nowhere, for the C7 witness. -/
def demoBadLine : BomLine := ⟨"part", "PX", none, false⟩

theorem bom_unresolvable_line_excluded_witness :
    unresolvable demoEnv demoBadLine
    ∧ (evalBomLines demoEnv ([] ++ demoBadLine :: [demoPLine])
        = { evalBomLines demoEnv ([] ++ [demoPLine]) with
            warnings := (evalBomLines demoEnv []).warnings
              ++ notFoundWarning demoBadLine :: (evalBomLines demoEnv [demoPLine]).warnings }
      ∧ (evalBomLines demoEnv ([] ++ [demoPLine])).warnings
          = (evalBomLines demoEnv []).warnings
              ++ (evalBomLines demoEnv [demoPLine]).warnings) :=
  ⟨Or.inl ⟨rfl, rfl⟩,
   bom_unresolvable_line_excluded demoEnv [] [demoPLine] demoBadLine (Or.inl ⟨rfl, rfl⟩)⟩

end HQuote
